import Mathlib

/-!
# Verification of the event-driven trading system

A shallow embedding of the core pipeline of the repository
(`src/trading/bus/event_bus.py`, `src/trading/events/types.py`,
`src/trading/signal/ma_crossover.py`, `src/trading/signal/rsi.py`,
`src/trading/order_manager/manager.py`, `src/trading/risk/manager.py`,
`src/trading/execution/simulator.py`, `src/trading/portfolio/tracker.py`),
together with theorems settling the specification claims.

Conventions of the embedding:

* Python `float` values are idealised as exact rationals (`ℚ`); Python `int`
  is `ℤ`; `datetime` timestamps are opaque integers.
* Python `round(x, n)` (round half to even) is modelled by `pyRound`.
* Per-symbol `dict` state is modelled by insertion-ordered association lists
  with `dget` / `dset` mirroring `d.get(k, default)` and `d[k] = v`
  (an update keeps the key's original slot, a new key is appended).
* Randomness (`random.Random.uniform(-1.0, 1.0)` in the execution simulator)
  is an explicit parameter `u` constrained to `[-1, 1]`; freshly generated
  UUID strings are explicit parameters.
* The f-string veto reasons built by the risk manager are modelled as a
  structured `VetoReason`; only their textual formatting is abstracted.
-/

/-- `Direction` enum of `src/trading/events/types.py`. -/
inductive Direction
  | buy
  | sell
  | hold
  deriving DecidableEq, Repr

/-- `OrderType` enum of `src/trading/events/types.py`. -/
inductive OrderType
  | market
  | limit
  deriving DecidableEq, Repr

/-- `MarketDataEvent` of `src/trading/events/types.py` (`open` is a Lean
keyword, hence the trailing underscore). -/
structure MarketDataEvent where
  symbol : String
  timestamp : ℤ
  open_ : ℚ
  high : ℚ
  low : ℚ
  close : ℚ
  volume : ℤ
  deriving DecidableEq, Repr

/-- `SignalEvent` of `src/trading/events/types.py`. -/
structure SignalEvent where
  symbol : String
  timestamp : ℤ
  direction : Direction
  strength : ℚ
  deriving DecidableEq, Repr

/-- `OrderEvent` of `src/trading/events/types.py`. -/
structure OrderEvent where
  order_id : String
  symbol : String
  timestamp : ℤ
  order_type : OrderType
  direction : Direction
  quantity : ℤ
  price : ℚ
  deriving DecidableEq, Repr

/-- `ApprovedOrderEvent` of `src/trading/events/types.py`. -/
structure ApprovedOrderEvent where
  order_id : String
  symbol : String
  timestamp : ℤ
  order_type : OrderType
  direction : Direction
  quantity : ℤ
  price : ℚ
  deriving DecidableEq, Repr

/-- `FillEvent` of `src/trading/events/types.py`. -/
structure FillEvent where
  fill_id : String
  order_id : String
  symbol : String
  timestamp : ℤ
  direction : Direction
  quantity : ℤ
  fill_price : ℚ
  commission : ℚ
  deriving DecidableEq, Repr

/-- The data carried by the two veto reason f-strings built in
`RiskManager._on_order` (`src/trading/risk/manager.py`); the decimal
formatting of the message text is abstracted. -/
inductive VetoReason
  | positionLimit (newPosition maxPosition : ℤ)
  | maxDrawdown (drawdownPct capPct : ℚ)
  deriving DecidableEq, Repr

/-- `RiskVetoEvent` of `src/trading/events/types.py`, with the reason kept
structured. -/
structure RiskVetoEvent where
  order_id : String
  symbol : String
  timestamp : ℤ
  reason : VetoReason
  deriving DecidableEq, Repr

/-- `PortfolioUpdateEvent` of `src/trading/events/types.py`. -/
structure PortfolioUpdateEvent where
  symbol : String
  timestamp : ℤ
  position : ℤ
  avg_cost : ℚ
  realized_pnl : ℚ
  unrealized_pnl : ℚ
  cash : ℚ
  equity : ℚ
  deriving DecidableEq, Repr

/-! ## Python primitives: dict access and `round` -/

/-- `d.get(k, dflt)` on an association list: value of the first entry with
key `k`, else the default. -/
def dget {β : Type} (d : List (String × β)) (k : String) (dflt : β) : β :=
  match d with
  | [] => dflt
  | (k2, v) :: rest => if k2 = k then v else dget rest k dflt

/-- `d[k] = v` on an association list: overwrite the first entry with key
`k` in place, or append a new entry (Python dict insertion order). -/
def dset {β : Type} (d : List (String × β)) (k : String) (v : β) :
    List (String × β) :=
  match d with
  | [] => [(k, v)]
  | (k2, v2) :: rest =>
      if k2 = k then (k2, v) :: rest else (k2, v2) :: dset rest k v

theorem dget_dset_same {β : Type} (d : List (String × β)) (k : String)
    (v dflt : β) : dget (dset d k v) k dflt = v := by
  induction d with
  | nil => simp [dget, dset]
  | cons p rest ih =>
      obtain ⟨k2, v2⟩ := p
      by_cases h : k2 = k <;> simp [dget, dset, h, ih]

theorem dget_dset_other {β : Type} (d : List (String × β)) (k k2 : String)
    (v dflt : β) (h : k ≠ k2) : dget (dset d k v) k2 dflt = dget d k2 dflt := by
  induction d with
  | nil => simp [dget, dset, h]
  | cons p rest ih =>
      obtain ⟨k3, v3⟩ := p
      by_cases h3 : k3 = k
      · subst h3
        simp [dget, dset, h]
      · simp [dget, dset, h3, ih]

/-- Round a rational to the nearest integer, ties to even — the rounding
used by Python's built-in `round`. -/
def halfEvenRound (x : ℚ) : ℤ :=
  if x - (⌊x⌋ : ℚ) < 1 / 2 then ⌊x⌋
  else if 1 / 2 < x - (⌊x⌋ : ℚ) then ⌊x⌋ + 1
  else if Even ⌊x⌋ then ⌊x⌋ else ⌊x⌋ + 1

/-- Python `round(x, n)` idealised on exact rationals. -/
def pyRound (x : ℚ) (n : ℕ) : ℚ :=
  (halfEvenRound (x * 10 ^ n) : ℚ) / 10 ^ n

theorem halfEvenRound_dist (x : ℚ) : |(halfEvenRound x : ℚ) - x| ≤ 1 / 2 := by
  have hfl : (⌊x⌋ : ℚ) ≤ x := Int.floor_le x
  have hfu : x < (⌊x⌋ : ℚ) + 1 := Int.lt_floor_add_one x
  unfold halfEvenRound
  by_cases h1 : x - (⌊x⌋ : ℚ) < 1 / 2
  · simp only [h1, if_true]
    rw [abs_sub_le_iff]
    constructor <;> linarith
  · by_cases h2 : 1 / 2 < x - (⌊x⌋ : ℚ)
    · simp only [h1, h2, if_false, if_true]
      rw [abs_sub_le_iff]
      push_cast
      constructor <;> linarith
    · by_cases h3 : Even ⌊x⌋ <;>
        · simp only [h1, h2, h3, if_false, if_true]
          rw [abs_sub_le_iff]
          push_cast
          constructor <;> linarith

theorem halfEvenRound_ge (x : ℚ) (a : ℤ) (h : (a : ℚ) ≤ x) :
    a ≤ halfEvenRound x := by
  have hfl : a ≤ ⌊x⌋ := Int.le_floor.mpr h
  unfold halfEvenRound
  by_cases h1 : x - (⌊x⌋ : ℚ) < 1 / 2
  · rw [if_pos h1]; exact hfl
  · rw [if_neg h1]
    by_cases h2 : 1 / 2 < x - (⌊x⌋ : ℚ)
    · rw [if_pos h2]; omega
    · rw [if_neg h2]
      by_cases h3 : Even ⌊x⌋
      · rw [if_pos h3]; exact hfl
      · rw [if_neg h3]; omega

theorem halfEvenRound_le (x : ℚ) (b : ℤ) (h : x ≤ (b : ℚ)) :
    halfEvenRound x ≤ b := by
  have hfl : ⌊x⌋ ≤ b := by
    have := Int.floor_le_floor h
    simpa using this
  unfold halfEvenRound
  by_cases h1 : x - (⌊x⌋ : ℚ) < 1 / 2
  · rw [if_pos h1]; exact hfl
  · rw [if_neg h1]
    have hfrac : (0 : ℚ) < x - (⌊x⌋ : ℚ) := by
      by_contra hc
      push_neg at hc
      have hz : x - (⌊x⌋ : ℚ) = 0 := le_antisymm hc (by linarith [Int.floor_le x])
      rw [hz] at h1
      exact h1 (by norm_num)
    have hlt : ⌊x⌋ < b := by
      rcases lt_or_eq_of_le hfl with hlt | heq
      · exact hlt
      · exfalso
        have hxb : x ≤ (⌊x⌋ : ℚ) := by rw [heq]; exact h
        linarith
    by_cases h2 : 1 / 2 < x - (⌊x⌋ : ℚ)
    · rw [if_pos h2]; omega
    · rw [if_neg h2]
      by_cases h3 : Even ⌊x⌋
      · rw [if_pos h3]; omega
      · rw [if_neg h3]; omega

theorem pyRound_dist (x : ℚ) (n : ℕ) : |pyRound x n - x| ≤ 1 / (2 * 10 ^ n) := by
  have h10 : (0 : ℚ) < 10 ^ n := by positivity
  have hd := halfEvenRound_dist (x * 10 ^ n)
  unfold pyRound
  have hx : (halfEvenRound (x * 10 ^ n) : ℚ) / 10 ^ n - x
      = ((halfEvenRound (x * 10 ^ n) : ℚ) - x * 10 ^ n) / 10 ^ n := by
    field_simp
    ring
  rw [hx, abs_div, abs_of_pos h10, div_le_div_iff₀ h10 (by positivity)]
  have hmul := mul_le_mul_of_nonneg_right hd
    (le_of_lt (by positivity : (0 : ℚ) < 2 * 10 ^ n))
  linarith

/-! ## EventBus (`src/trading/bus/event_bus.py`)

`EventBus.run` drains a single FIFO queue shared by all event kinds; a
handler invoked on a dequeued event may publish, which appends to the tail.
The model abstracts the per-kind handler table into a single function
`h : α → List α` giving, for each dispatched event, the list of events its
handlers publish, in publish order.  `run h fuel q` returns the dispatch
trace and the remaining queue; `fuel` plays the role of `max_events`
(`run(max_events=None)` corresponds to any `fuel` large enough that the
remaining queue is empty). -/

namespace EventBus

def run {α : Type} (h : α → List α) : ℕ → List α → List α × List α
  | 0, q => ([], q)
  | _ + 1, [] => ([], [])
  | fuel + 1, e :: rest =>
      let r := run h fuel (rest ++ h e)
      (e :: r.1, r.2)

/-- Queue/trace invariant of the dispatch loop: the initial queue followed
by everything published by dispatched handlers equals the dispatch trace
followed by the remaining queue. -/
theorem run_publish_invariant {α : Type} (h : α → List α) :
    ∀ (fuel : ℕ) (q : List α),
      q ++ (((run h fuel q).1).map h).flatten
        = (run h fuel q).1 ++ (run h fuel q).2 := by
  intro fuel
  induction fuel with
  | zero => intro q; simp [run]
  | succ n ih =>
      intro q
      cases q with
      | nil => simp [run]
      | cons e rest =>
          have hrec := ih (rest ++ h e)
          simp only [run, List.map_cons, List.flatten_cons, List.cons_append]
          rw [← List.append_assoc]
          rw [hrec]

/-- The first `xs.length` dispatched events are exactly `xs` whenever the
queue starts with `xs` and the fuel allows that many dispatches. -/
theorem run_take_initial {α : Type} (h : α → List α) :
    ∀ (xs ys : List α) (fuel : ℕ), xs.length ≤ fuel →
      ((run h fuel (xs ++ ys)).1).take xs.length = xs := by
  intro xs
  induction xs with
  | nil => intro ys fuel _; simp
  | cons x xs ih =>
      intro ys fuel hf
      cases fuel with
      | zero => simp at hf
      | succ n =>
          have hih := ih (ys ++ h x) n (by simp at hf; omega)
          simp only [List.cons_append, run, List.length_cons, List.take_succ_cons,
            List.append_eq, List.append_assoc]
          rw [hih]

end EventBus

/-- **C1.** During one `run()` of the `EventBus`, every event that was in
the queue when `run()` started is dequeued and dispatched before any event
a handler publishes during that run (first conjunct: the trace begins with
the initial queue), and when the queue drains fully the dispatch trace is
exactly the global FIFO publish order — the pre-run publishes followed by
each dispatched event's handler publishes in dispatch order, regardless of
event kind (second conjunct). -/
theorem c1_run_dispatches_in_global_fifo_order {α : Type} (h : α → List α)
    (fuel : ℕ) (init : List α) :
    (init.length ≤ fuel →
      ((EventBus.run h fuel init).1).take init.length = init) ∧
    (∀ t, EventBus.run h fuel init = (t, []) →
      t = init ++ (t.map h).flatten) := by
  constructor
  · intro hf
    have := EventBus.run_take_initial h init [] fuel hf
    simpa using this
  · intro t ht
    have hinv := EventBus.run_publish_invariant h fuel init
    rw [ht] at hinv
    simpa using hinv.symm

/-- Witness for C1: a concrete bus whose handler for event `0` publishes
event `5`; both initial events are dispatched first and the full trace is
the global publish order. -/
theorem c1_witness :
    ((EventBus.run (fun n : ℕ => if n = 0 then [5] else []) 4 [0, 1]).1).take 2 = [0, 1] ∧
    [0, 1, 5] = [0, 1] ++ (([0, 1, 5].map (fun n : ℕ => if n = 0 then [5] else [])).flatten) := by
  have hc := c1_run_dispatches_in_global_fifo_order
    (fun n : ℕ => if n = 0 then [5] else []) 4 [0, 1]
  constructor
  · exact hc.1 (by decide)
  · exact hc.2 [0, 1, 5] (by decide)

/-! ## RiskManager (`src/trading/risk/manager.py`) -/

/-- The mutable state of a `RiskManager` instance: configuration plus the
shadow per-symbol positions and equity view synced from
`PortfolioUpdateEvent`s. -/
structure RiskState where
  max_position : ℤ
  max_drawdown_pct : ℚ
  positions : List (String × ℤ)
  peak_equity : ℚ
  current_equity : ℚ
  deriving DecidableEq, Repr

/-- An event published by the risk stage. -/
inductive RiskOut
  | approved (e : ApprovedOrderEvent)
  | veto (e : RiskVetoEvent)
  deriving DecidableEq, Repr

namespace RiskManager

/-- `RiskManager._on_order`: returns the (unchanged) instance state together
with the list of events published during the handler call.  The Python
early-return structure (position-limit veto, then the drawdown veto guarded
by `self._peak_equity > 0`, then approval) is rendered as an if-chain; the
`0 < peak ∧ cap < drawdown` condition merges the guard with the inner
drawdown comparison, the two fall-through paths both approving. -/
def on_order (s : RiskState) (e : OrderEvent) : RiskState × List RiskOut :=
  let signed_qty : ℤ :=
    if e.direction = Direction.buy then e.quantity else -e.quantity
  let current := dget s.positions e.symbol 0
  let new_position := current + signed_qty
  if s.max_position < |new_position| then
    (s, [RiskOut.veto ⟨e.order_id, e.symbol, e.timestamp,
          VetoReason.positionLimit new_position s.max_position⟩])
  else if 0 < s.peak_equity ∧
      s.max_drawdown_pct < (s.peak_equity - s.current_equity) / s.peak_equity * 100 then
    (s, [RiskOut.veto ⟨e.order_id, e.symbol, e.timestamp,
          VetoReason.maxDrawdown
            ((s.peak_equity - s.current_equity) / s.peak_equity * 100)
            s.max_drawdown_pct⟩])
  else
    (s, [RiskOut.approved ⟨e.order_id, e.symbol, e.timestamp, e.order_type,
          e.direction, e.quantity, e.price⟩])

/-- `RiskManager._on_portfolio_update`: records current equity, raises the
peak if exceeded, and syncs the symbol's shadow position. -/
def on_portfolio_update (s : RiskState) (e : PortfolioUpdateEvent) : RiskState :=
  { s with
    current_equity := e.equity
    peak_equity := if s.peak_equity < e.equity then e.equity else s.peak_equity
    positions := dset s.positions e.symbol e.position }

theorem on_order_fst (s : RiskState) (e : OrderEvent) : (on_order s e).1 = s := by
  unfold on_order
  by_cases h1 : s.max_position <
      |dget s.positions e.symbol 0 +
        (if e.direction = Direction.buy then e.quantity else -e.quantity)|
  · simp [h1]
  · by_cases h2 : 0 < s.peak_equity ∧
        s.max_drawdown_pct < (s.peak_equity - s.current_equity) / s.peak_equity * 100
    · simp [h1, h2]
    · simp [h1, h2]

/-- Fold `_on_order` over a list of orders, accumulating published events. -/
def process_orders (s : RiskState) (orders : List OrderEvent) :
    RiskState × List RiskOut :=
  orders.foldl (fun acc e =>
    let r := on_order acc.1 e
    (r.1, acc.2 ++ r.2)) (s, [])

theorem process_orders_spec (orders : List OrderEvent) :
    ∀ (s : RiskState) (acc : List RiskOut),
      orders.foldl (fun acc e =>
          let r := on_order acc.1 e
          (r.1, acc.2 ++ r.2)) (s, acc)
        = (s, acc ++ (orders.map (fun o => (on_order s o).2)).flatten) := by
  induction orders with
  | nil => intro s acc; simp
  | cons o os ih =>
      intro s acc
      simp only [List.foldl_cons, List.map_cons, List.flatten_cons]
      rw [on_order_fst s o]
      rw [ih s (acc ++ (on_order s o).2)]
      simp [List.append_assoc]

end RiskManager

/-- Fixed concrete tokens used by witnesses. -/
def symA : String := "A"

def symB : String := "B"

def oid1 : String := "order-1"

def fid1 : String := "fill-1"

/-- **C2.** For every `OrderEvent` handled by `RiskManager._on_order`,
exactly one event is published and it is an `ApprovedOrderEvent` or a
`RiskVetoEvent` (first conjunct); the position-limit check runs first: when
the hypothetical absolute position exceeds `max_position` the one published
event is the position-limit veto, whatever the drawdown state (second
conjunct); when the position passes and the drawdown test trips, the one
published event is the drawdown veto (third conjunct); and any published
approval carries the order's `order_id`, `symbol`, `timestamp`,
`order_type`, `direction`, `quantity` and `price` unchanged (fourth
conjunct). -/
theorem c2_risk_exactly_one_decision (s : RiskState) (e : OrderEvent) :
    ((RiskManager.on_order s e).2).length = 1 ∧
    (s.max_position <
        |dget s.positions e.symbol 0 +
          (if e.direction = Direction.buy then e.quantity else -e.quantity)| →
      (RiskManager.on_order s e).2 =
        [RiskOut.veto ⟨e.order_id, e.symbol, e.timestamp,
          VetoReason.positionLimit
            (dget s.positions e.symbol 0 +
              (if e.direction = Direction.buy then e.quantity else -e.quantity))
            s.max_position⟩]) ∧
    (|dget s.positions e.symbol 0 +
        (if e.direction = Direction.buy then e.quantity else -e.quantity)|
          ≤ s.max_position →
      0 < s.peak_equity →
      s.max_drawdown_pct <
        (s.peak_equity - s.current_equity) / s.peak_equity * 100 →
      (RiskManager.on_order s e).2 =
        [RiskOut.veto ⟨e.order_id, e.symbol, e.timestamp,
          VetoReason.maxDrawdown
            ((s.peak_equity - s.current_equity) / s.peak_equity * 100)
            s.max_drawdown_pct⟩]) ∧
    (∀ a, RiskOut.approved a ∈ (RiskManager.on_order s e).2 →
      a.order_id = e.order_id ∧ a.symbol = e.symbol ∧
      a.timestamp = e.timestamp ∧ a.order_type = e.order_type ∧
      a.direction = e.direction ∧ a.quantity = e.quantity ∧
      a.price = e.price) := by
  unfold RiskManager.on_order
  by_cases h1 : s.max_position <
      |dget s.positions e.symbol 0 +
        (if e.direction = Direction.buy then e.quantity else -e.quantity)|
  · refine ⟨by simp [h1], fun _ => by simp [h1], fun hle _ _ => absurd h1 (not_lt.mpr hle), ?_⟩
    intro a ha
    simp [h1] at ha
  · by_cases h2 : 0 < s.peak_equity ∧
        s.max_drawdown_pct < (s.peak_equity - s.current_equity) / s.peak_equity * 100
    · refine ⟨by simp [h1, h2], fun hlt => absurd hlt h1,
        fun _ _ _ => by simp [h1, h2], ?_⟩
      intro a ha
      simp [h1, h2] at ha
    · refine ⟨by simp [h1, h2], fun hlt => absurd hlt h1,
        fun _ hpk hdd => absurd ⟨hpk, hdd⟩ h2, ?_⟩
      intro a ha
      simp [h1, h2] at ha
      subst ha
      exact ⟨rfl, rfl, rfl, rfl, rfl, rfl, rfl⟩

/-- Witness for C2: a 600-share buy order against a flat book with
`max_position = 500` — the handler publishes exactly one event, the
position-limit veto, even though the drawdown state is healthy. -/
theorem c2_witness :
    ((RiskManager.on_order ⟨500, 10, [], 100000, 100000⟩
        ⟨oid1, symA, 0, OrderType.market, Direction.buy, 600, 50⟩).2).length = 1 ∧
    (RiskManager.on_order ⟨500, 10, [], 100000, 100000⟩
        ⟨oid1, symA, 0, OrderType.market, Direction.buy, 600, 50⟩).2 =
      [RiskOut.veto ⟨oid1, symA, 0, VetoReason.positionLimit 600 500⟩] := by
  have hc := c2_risk_exactly_one_decision ⟨500, 10, [], 100000, 100000⟩
    ⟨oid1, symA, 0, OrderType.market, Direction.buy, 600, 50⟩
  refine ⟨hc.1, ?_⟩
  have h2 := hc.2.1 (by norm_num [dget])
  simpa [dget] using h2

/-- **C10.** `RiskManager._on_order` never changes the risk stage's own
state: the shadow positions, peak equity and current equity are the same
before and after the handler (first conjunct); hence folding any sequence
of orders with no intervening `PortfolioUpdateEvent` still ends in the
starting state (second conjunct) and every order in the sequence is
evaluated against that same starting position/equity view — the published
decisions are exactly the per-order decisions taken at the initial state
(third conjunct). -/
theorem c10_risk_order_handler_is_read_only (s : RiskState)
    (e : OrderEvent) (orders : List OrderEvent) :
    (RiskManager.on_order s e).1 = s ∧
    (RiskManager.process_orders s orders).1 = s ∧
    (RiskManager.process_orders s orders).2 =
      (orders.map (fun o => (RiskManager.on_order s o).2)).flatten := by
  refine ⟨RiskManager.on_order_fst s e, ?_, ?_⟩
  · unfold RiskManager.process_orders
    rw [RiskManager.process_orders_spec orders s []]
  · unfold RiskManager.process_orders
    rw [RiskManager.process_orders_spec orders s []]
    simp

/-! ## PortfolioTracker (`src/trading/portfolio/tracker.py`) -/

/-- Mutable state of a `PortfolioTracker` instance. -/
structure PortfolioState where
  cash : ℚ
  positions : List (String × ℤ)
  avg_cost : List (String × ℚ)
  realized_pnl : List (String × ℚ)
  last_price : List (String × ℚ)
  deriving DecidableEq, Repr

namespace PortfolioTracker

/-- `PortfolioTracker.__init__`. -/
def initial (starting_cash : ℚ) : PortfolioState :=
  ⟨starting_cash, [], [], [], []⟩

/-- `PortfolioTracker._on_market_data`. -/
def on_market_data (s : PortfolioState) (e : MarketDataEvent) : PortfolioState :=
  { s with last_price := dset s.last_price e.symbol e.close }

/-- `PortfolioTracker._on_fill`: the updated state and the published
`PortfolioUpdateEvent`.  The BUY/SELL branch computes the tuple
(position, average cost, realized P&L, cash); the equity sum iterates the
updated positions dict, pricing each symbol at its last close and falling
back to its (updated) average cost, exactly as the generator expression in
the source does (the association lists built by `dset` are duplicate-free,
so an entry's stored value is its looked-up value). -/
def on_fill (s : PortfolioState) (e : FillEvent) :
    PortfolioState × PortfolioUpdateEvent :=
  let sym := e.symbol
  let pos := dget s.positions sym 0
  let avg := dget s.avg_cost sym 0
  let realized := dget s.realized_pnl sym 0
  let r : ℤ × ℚ × ℚ × ℚ :=
    if e.direction = Direction.buy then
      let total_cost := avg * (pos : ℚ) + e.fill_price * (e.quantity : ℚ)
      let pos2 := pos + e.quantity
      let avg2 := if pos2 ≠ 0 then total_cost / (pos2 : ℚ) else 0
      (pos2, avg2, realized,
        s.cash - (e.fill_price * (e.quantity : ℚ) + e.commission))
    else
      let realized2 := realized + (e.fill_price - avg) * (e.quantity : ℚ)
      let pos2 := pos - e.quantity
      let cash2 := s.cash + (e.fill_price * (e.quantity : ℚ) - e.commission)
      let avg2 := if pos2 = 0 then 0 else avg
      (pos2, avg2, realized2, cash2)
  let pos2 := r.1
  let avg2 := r.2.1
  let realized2 := r.2.2.1
  let cash2 := r.2.2.2
  let positions2 := dset s.positions sym pos2
  let avg_cost2 := dset s.avg_cost sym avg2
  let realized_pnl2 := dset s.realized_pnl sym realized2
  let last := dget s.last_price sym e.fill_price
  let unrealized := if pos2 ≠ 0 then (last - avg2) * (pos2 : ℚ) else 0
  let equity := cash2 + (positions2.map (fun p =>
      (p.2 : ℚ) * dget s.last_price p.1 (dget avg_cost2 p.1 0))).sum
  (⟨cash2, positions2, avg_cost2, realized_pnl2, s.last_price⟩,
   ⟨sym, e.timestamp, pos2, pyRound avg2 4, pyRound realized2 4,
    pyRound unrealized 4, pyRound cash2 4, pyRound equity 4⟩)

/-- The position field written by `_on_fill` is the old position plus the
signed quantity. -/
theorem on_fill_positions (s : PortfolioState) (e : FillEvent) :
    ((on_fill s e).1).positions =
      dset s.positions e.symbol
        (if e.direction = Direction.buy
          then dget s.positions e.symbol 0 + e.quantity
          else dget s.positions e.symbol 0 - e.quantity) := by
  by_cases h : e.direction = Direction.buy <;> simp [on_fill, h]

end PortfolioTracker

def oid2 : String := "order-2"

def fid2 : String := "fill-2"

/-- **C4.** For every BUY `FillEvent`, `PortfolioTracker._on_fill` sets the
symbol's average cost to `(avg_cost*pos + fill_price*qty) / (pos + qty)`
(read in `ℚ` with total division, whose `x / 0 = 0` convention coincides
with the code's explicit `else 0.0` branch — the third conjunct states the
`pos = -qty` case explicitly), increases the position by `qty`, and
decreases cash by `fill_price*qty + commission`, for every prior state. -/
theorem c4_buy_fill_weighted_average (s : PortfolioState) (e : FillEvent)
    (hbuy : e.direction = Direction.buy) :
    dget ((PortfolioTracker.on_fill s e).1).positions e.symbol 0
        = dget s.positions e.symbol 0 + e.quantity ∧
    dget ((PortfolioTracker.on_fill s e).1).avg_cost e.symbol 0
        = (dget s.avg_cost e.symbol 0 * ((dget s.positions e.symbol 0 : ℤ) : ℚ)
            + e.fill_price * (e.quantity : ℚ))
          / (((dget s.positions e.symbol 0 : ℤ) : ℚ) + (e.quantity : ℚ)) ∧
    (dget s.positions e.symbol 0 + e.quantity = 0 →
      dget ((PortfolioTracker.on_fill s e).1).avg_cost e.symbol 0 = 0) ∧
    ((PortfolioTracker.on_fill s e).1).cash
        = s.cash - (e.fill_price * (e.quantity : ℚ) + e.commission) := by
  refine ⟨?_, ?_, ?_, ?_⟩
  · simp [PortfolioTracker.on_fill, hbuy, dget_dset_same]
  · by_cases hz : dget s.positions e.symbol 0 + e.quantity = 0
    · have hzq : ((dget s.positions e.symbol 0 : ℤ) : ℚ) + (e.quantity : ℚ) = 0 := by
        exact_mod_cast congrArg (fun n : ℤ => (n : ℚ)) hz
      simp [PortfolioTracker.on_fill, hbuy, dget_dset_same, hz, hzq]
    · have hzq : ((dget s.positions e.symbol 0 + e.quantity : ℤ) : ℚ)
          = ((dget s.positions e.symbol 0 : ℤ) : ℚ) + (e.quantity : ℚ) := by
        push_cast
        ring
      simp [PortfolioTracker.on_fill, hbuy, dget_dset_same, hz, hzq]
  · intro hz
    have hzq : ((dget s.positions e.symbol 0 : ℤ) : ℚ) + (e.quantity : ℚ) = 0 := by
      exact_mod_cast congrArg (fun n : ℤ => (n : ℚ)) hz
    simp [PortfolioTracker.on_fill, hbuy, dget_dset_same, hz, hzq]
  · simp [PortfolioTracker.on_fill, hbuy]

/-- Witness for C4: buying 4 shares at 25 with commission 1 against a prior
short position of 2 at average cost 20. -/
theorem c4_witness :
    dget ((PortfolioTracker.on_fill ⟨1000, [(symA, -2)], [(symA, 20)], [], []⟩
        ⟨fid1, oid1, symA, 0, Direction.buy, 4, 25, 1⟩).1).positions symA 0 = 2 ∧
    dget ((PortfolioTracker.on_fill ⟨1000, [(symA, -2)], [(symA, 20)], [], []⟩
        ⟨fid1, oid1, symA, 0, Direction.buy, 4, 25, 1⟩).1).avg_cost symA 0 = 30 ∧
    ((PortfolioTracker.on_fill ⟨1000, [(symA, -2)], [(symA, 20)], [], []⟩
        ⟨fid1, oid1, symA, 0, Direction.buy, 4, 25, 1⟩).1).cash = 899 := by
  have h := c4_buy_fill_weighted_average ⟨1000, [(symA, -2)], [(symA, 20)], [], []⟩
    ⟨fid1, oid1, symA, 0, Direction.buy, 4, 25, 1⟩ rfl
  refine ⟨?_, ?_, ?_⟩
  · rw [h.1]; norm_num [dget]
  · rw [h.2.1]; norm_num [dget]
  · rw [h.2.2.2]; norm_num

/-- **C6.** Round-trip from a flat portfolio: a BUY fill of `N` shares at
`bp` followed by a SELL fill of `N` shares at `sp` (any commissions, any
cash) leaves realized P&L `(sp - bp) * N`, position `0`, and average cost
`0`, for every `N > 0`. -/
theorem c6_round_trip (sym fidA fidB oidA oidB : String) (ts1 ts2 : ℤ)
    (N : ℤ) (hN : 0 < N) (bp sp c1 c2 cash0 : ℚ) :
    dget ((PortfolioTracker.on_fill
        ((PortfolioTracker.on_fill (PortfolioTracker.initial cash0)
            ⟨fidA, oidA, sym, ts1, Direction.buy, N, bp, c1⟩).1)
        ⟨fidB, oidB, sym, ts2, Direction.sell, N, sp, c2⟩).1).realized_pnl sym 0
      = (sp - bp) * (N : ℚ) ∧
    dget ((PortfolioTracker.on_fill
        ((PortfolioTracker.on_fill (PortfolioTracker.initial cash0)
            ⟨fidA, oidA, sym, ts1, Direction.buy, N, bp, c1⟩).1)
        ⟨fidB, oidB, sym, ts2, Direction.sell, N, sp, c2⟩).1).positions sym 0 = 0 ∧
    dget ((PortfolioTracker.on_fill
        ((PortfolioTracker.on_fill (PortfolioTracker.initial cash0)
            ⟨fidA, oidA, sym, ts1, Direction.buy, N, bp, c1⟩).1)
        ⟨fidB, oidB, sym, ts2, Direction.sell, N, sp, c2⟩).1).avg_cost sym 0 = 0 := by
  have hNZ : N ≠ 0 := by omega
  have hNQ : (N : ℚ) ≠ 0 := Int.cast_ne_zero.mpr hNZ
  refine ⟨?_, ?_, ?_⟩ <;>
    simp [PortfolioTracker.on_fill, PortfolioTracker.initial, dget, dset, hNZ, hNQ]

/-- Witness for C6: buy 5 at 10, sell 5 at 12 — realized P&L 10, flat
position, average cost reset. -/
theorem c6_witness :
    dget ((PortfolioTracker.on_fill
        ((PortfolioTracker.on_fill (PortfolioTracker.initial 1000)
            ⟨fid1, oid1, symA, 0, Direction.buy, 5, 10, 1⟩).1)
        ⟨fid2, oid2, symA, 0, Direction.sell, 5, 12, 1⟩).1).realized_pnl symA 0
      = 10 := by
  have h := (c6_round_trip symA fid1 fid2 oid1 oid2 0 0 5 (by norm_num) 10 12 1 1 1000).1
  rw [h]
  norm_num

theorem c7_aux (fills : List FillEvent) :
    ∀ (s : PortfolioState) (sym : String),
      dget ((fills.foldl (fun st e => (PortfolioTracker.on_fill st e).1) s).positions) sym 0
        = dget s.positions sym 0 +
          (fills.map (fun e => if e.symbol = sym then
            (if e.direction = Direction.buy then e.quantity else -e.quantity) else 0)).sum := by
  induction fills with
  | nil => intro s sym; simp
  | cons f fs ih =>
      intro s sym
      simp only [List.foldl_cons, List.map_cons, List.sum_cons]
      rw [ih]
      rw [PortfolioTracker.on_fill_positions s f]
      by_cases hsym : f.symbol = sym
      · rw [hsym, dget_dset_same]
        by_cases hdir : f.direction = Direction.buy <;> simp [hdir, hsym] <;> ring
      · rw [dget_dset_other _ _ _ _ _ hsym]
        simp [hsym]

/-- **C7.** Starting from a fresh portfolio, for every symbol and every
sequence of BUY/SELL fills, the tracked position of the symbol after the
sequence equals the signed sum of the fill quantities for that symbol
(BUY counted positive, SELL counted negative). -/
theorem c7_position_is_signed_sum (cash0 : ℚ) (fills : List FillEvent)
    (sym : String) (_hdir : ∀ e ∈ fills, e.direction ≠ Direction.hold) :
    dget ((fills.foldl (fun st e => (PortfolioTracker.on_fill st e).1)
        (PortfolioTracker.initial cash0)).positions) sym 0
      = (fills.map (fun e => if e.symbol = sym then
          (if e.direction = Direction.buy then e.quantity else -e.quantity)
          else 0)).sum := by
  have h := c7_aux fills (PortfolioTracker.initial cash0) sym
  simpa [PortfolioTracker.initial, dget] using h

/-- Witness for C7: buy 3 A, sell 1 A, buy 2 B — position of A is 2. -/
theorem c7_witness :
    (∀ e ∈ [(⟨fid1, oid1, symA, 0, Direction.buy, 3, 10, 0⟩ : FillEvent),
            ⟨fid2, oid2, symA, 1, Direction.sell, 1, 11, 0⟩,
            ⟨fid2, oid2, symB, 2, Direction.buy, 2, 50, 0⟩],
      e.direction ≠ Direction.hold) ∧
    dget (([(⟨fid1, oid1, symA, 0, Direction.buy, 3, 10, 0⟩ : FillEvent),
            ⟨fid2, oid2, symA, 1, Direction.sell, 1, 11, 0⟩,
            ⟨fid2, oid2, symB, 2, Direction.buy, 2, 50, 0⟩].foldl
        (fun st e => (PortfolioTracker.on_fill st e).1)
        (PortfolioTracker.initial 1000)).positions) symA 0 = 2 := by
  refine ⟨by decide, ?_⟩
  rw [c7_position_is_signed_sum 1000 _ symA (by decide)]
  decide

/-! ## OrderManager (`src/trading/order_manager/manager.py`) -/

/-- Mutable state of an `OrderManager` instance: the configured lot size and
the last observed close per symbol. -/
structure OMState where
  quantity : ℤ
  last_price : List (String × ℚ)
  deriving DecidableEq, Repr

namespace OrderManager

/-- `OrderManager._on_market_data`. -/
def on_market_data (s : OMState) (e : MarketDataEvent) : OMState :=
  { s with last_price := dset s.last_price e.symbol e.close }

/-- `OrderManager._on_signal`: the list of published orders (`[]` for HOLD);
the fresh `uuid4` order id is the explicit parameter `oid`. -/
def on_signal (s : OMState) (oid : String) (e : SignalEvent) : List OrderEvent :=
  if e.direction = Direction.hold then []
  else
    [⟨oid, e.symbol, e.timestamp, OrderType.market, e.direction, s.quantity,
      dget s.last_price e.symbol 0⟩]

end OrderManager

/-- The most recently recorded close for `sym` in a market-data stream
(`0` if the symbol never appeared): the reference price the spec ascribes
to the order stage. -/
def lastClose (sym : String) (mds : List MarketDataEvent) : ℚ :=
  ((mds.reverse.find? (fun m => m.symbol == sym)).map (fun m => m.close)).getD 0

theorem om_fold_quantity (mds : List MarketDataEvent) :
    ∀ s : OMState, (mds.foldl OrderManager.on_market_data s).quantity = s.quantity := by
  induction mds with
  | nil => intro s; simp
  | cons m ms ih =>
      intro s
      simp only [List.foldl_cons]
      rw [ih]
      rfl

theorem om_fold_last_price (sym : String) (mds : List MarketDataEvent) :
    ∀ s : OMState,
      dget ((mds.foldl OrderManager.on_market_data s).last_price) sym 0
        = ((mds.reverse.find? (fun m => m.symbol == sym)).map
            (fun m => m.close)).getD (dget s.last_price sym 0) := by
  induction mds using List.reverseRecOn with
  | nil => intro s; simp
  | append_singleton ms m ih =>
      intro s
      rw [List.foldl_append]
      simp only [List.foldl_cons, List.foldl_nil, List.reverse_append,
        List.reverse_cons, List.reverse_nil, List.nil_append, List.singleton_append,
        List.find?_cons]
      by_cases h : m.symbol = sym
      · have hb : (m.symbol == sym) = true := beq_iff_eq.mpr h
        rw [hb]
        show dget (dset (ms.foldl OrderManager.on_market_data s).last_price
          m.symbol m.close) sym 0 = m.close
        rw [h, dget_dset_same]
      · have hb : (m.symbol == sym) = false := beq_eq_false_iff_ne.mpr h
        rw [hb]
        show dget (dset (ms.foldl OrderManager.on_market_data s).last_price
          m.symbol m.close) sym 0 = _
        rw [dget_dset_other _ _ _ _ _ h, ih s]

/-- **C9.** After any stream of market data, the order stage publishes
nothing on a HOLD signal, and on a BUY or SELL signal publishes exactly one
MARKET `OrderEvent` with the configured fixed quantity and with price equal
to the most recently recorded close for the signal's symbol (0 if the
symbol never appeared in the stream). -/
theorem c9_order_stage_reference_price (q : ℤ) (mds : List MarketDataEvent)
    (oid : String) (sig : SignalEvent) :
    (sig.direction = Direction.hold →
      OrderManager.on_signal (mds.foldl OrderManager.on_market_data ⟨q, []⟩)
        oid sig = []) ∧
    (sig.direction ≠ Direction.hold →
      OrderManager.on_signal (mds.foldl OrderManager.on_market_data ⟨q, []⟩)
        oid sig =
        [⟨oid, sig.symbol, sig.timestamp, OrderType.market, sig.direction, q,
          lastClose sig.symbol mds⟩]) := by
  constructor
  · intro hhold
    simp [OrderManager.on_signal, hhold]
  · intro hne
    have hq := om_fold_quantity mds ⟨q, []⟩
    have hp := om_fold_last_price sig.symbol mds ⟨q, []⟩
    simp only [OrderManager.on_signal, hne, if_neg hne, if_false]
    rw [hq, hp]
    simp [lastClose, dget]

/-- Witness for C9: after bars for A at closes 10 then 11, a BUY signal on A
yields one MARKET order at price 11, and a HOLD signal yields nothing. -/
theorem c9_witness :
    OrderManager.on_signal
        ([(⟨symA, 0, 10, 10, 10, 10, 1⟩ : MarketDataEvent),
          ⟨symA, 1, 11, 11, 11, 11, 1⟩].foldl
          OrderManager.on_market_data ⟨100, []⟩) oid1
        ⟨symA, 2, Direction.buy, 1⟩
      = [⟨oid1, symA, 2, OrderType.market, Direction.buy, 100, 11⟩] ∧
    OrderManager.on_signal
        ([(⟨symA, 0, 10, 10, 10, 10, 1⟩ : MarketDataEvent),
          ⟨symA, 1, 11, 11, 11, 11, 1⟩].foldl
          OrderManager.on_market_data ⟨100, []⟩) oid1
        ⟨symA, 2, Direction.hold, 0⟩
      = [] := by
  constructor
  · have h := (c9_order_stage_reference_price 100
      [(⟨symA, 0, 10, 10, 10, 10, 1⟩ : MarketDataEvent),
        ⟨symA, 1, 11, 11, 11, 11, 1⟩] oid1 ⟨symA, 2, Direction.buy, 1⟩).2
      (by decide)
    rw [h]
    norm_num [lastClose, List.find?]
  · exact (c9_order_stage_reference_price 100
      [(⟨symA, 0, 10, 10, 10, 10, 1⟩ : MarketDataEvent),
        ⟨symA, 1, 11, 11, 11, 11, 1⟩] oid1 ⟨symA, 2, Direction.hold, 0⟩).1 rfl

/-! ## ExecutionSimulator (`src/trading/execution/simulator.py`) -/

namespace ExecutionSimulator

/-- `ExecutionSimulator._on_order`: the published `FillEvent`.  The draw
`self._rng.uniform(-1.0, 1.0)` is the explicit parameter `u`, the fresh
`uuid4` fill id the parameter `fid`. -/
def on_order (slippage_bps commission_per_share u : ℚ) (fid : String)
    (e : ApprovedOrderEvent) : FillEvent :=
  let ref_price := if 0 < e.price then e.price else 150
  let slip := ref_price * (slippage_bps / 10000) * u
  let fill_price := pyRound (ref_price + slip) 4
  let commission := pyRound ((e.quantity : ℚ) * commission_per_share) 4
  ⟨fid, e.order_id, e.symbol, e.timestamp, e.direction, e.quantity,
    fill_price, commission⟩

theorem on_order_fill_price (slippage_bps commission_per_share u : ℚ)
    (fid : String) (e : ApprovedOrderEvent) (hp : 0 < e.price) :
    (on_order slippage_bps commission_per_share u fid e).fill_price
      = pyRound (e.price + e.price * (slippage_bps / 10000) * u) 4 := by
  simp [on_order, hp]

end ExecutionSimulator

/-- Counterexample to **C8** as stated: with the default `slippage_bps = 1`,
reference price `0.77` and draw `u = 0.9 ∈ [-1, 1]`, the raw fill price
`0.7700693` rounds to 4 decimals as `0.7701`, which lies OUTSIDE
`reference ± reference * slippage_bps / 10000 = 0.77 ± 0.000077`:
4-decimal rounding can push the fill price past the slippage band. -/
theorem c8_counterexample :
    (-1 : ℚ) ≤ 9 / 10 ∧ (9 / 10 : ℚ) ≤ 1 ∧
    (0 : ℚ) < 77 / 100 ∧
    (ExecutionSimulator.on_order 1 (1 / 100) (9 / 10) fid1
        ⟨oid1, symA, 0, OrderType.market, Direction.buy, 100, 77 / 100⟩).fill_price
      = 7701 / 10000 ∧
    ¬ |(ExecutionSimulator.on_order 1 (1 / 100) (9 / 10) fid1
        ⟨oid1, symA, 0, OrderType.market, Direction.buy, 100, 77 / 100⟩).fill_price
        - 77 / 100| ≤ (77 / 100) * 1 / 10000 := by
  have hraw : ((77 : ℚ) / 100 + 77 / 100 * (1 / 10000) * (9 / 10)) * 10 ^ 4
      = 7700693 / 1000 := by norm_num
  have hfl : ⌊(7700693 / 1000 : ℚ)⌋ = 7700 := by
    rw [Int.floor_eq_iff]
    norm_num
  have hher : halfEvenRound (7700693 / 1000 : ℚ) = 7701 := by
    unfold halfEvenRound
    rw [hfl]
    norm_num
  have hfill : (ExecutionSimulator.on_order 1 (1 / 100) (9 / 10) fid1
      ⟨oid1, symA, 0, OrderType.market, Direction.buy, 100, 77 / 100⟩).fill_price
      = 7701 / 10000 := by
    rw [ExecutionSimulator.on_order_fill_price 1 (1 / 100) (9 / 10) fid1 _
      (by norm_num)]
    unfold pyRound
    rw [hraw, hher]
    norm_num
  refine ⟨by norm_num, by norm_num, by norm_num, hfill, ?_⟩
  rw [hfill]
  intro hc
  have habs : |(7701 : ℚ) / 10000 - 77 / 100| = 1 / 10000 := by
    rw [show (7701 : ℚ) / 10000 - 77 / 100 = 1 / 10000 by norm_num]
    rw [abs_of_pos]
    norm_num
  rw [habs] at hc
  norm_num at hc

/-- **C8 (amended).** For every approved order with positive price, the fill
price is `round4(ref + ref * (slippage_bps/10000) * u)` with the uniform
draw `u ∈ [-1, 1]` (first conjunct), so it lies within
`ref ± (ref * slippage_bps/10000 + 0.00005)` — the slippage band widened by
the worst-case 4-decimal rounding error (second conjunct); the commission
is `round4(quantity * commission_per_share)` (third conjunct); and in the
scenario `slippage_bps = 1`, reference price `200.0` — whose band ends are
4-decimal grid points — the fill price lies within `200.0 ± 0.02` exactly
(fourth conjunct). -/
theorem c8_fill_price_slippage_band (bps cps u : ℚ) (fid : String)
    (e : ApprovedOrderEvent) (hp : 0 < e.price) (hbps : 0 ≤ bps)
    (hu1 : -1 ≤ u) (hu2 : u ≤ 1) :
    (ExecutionSimulator.on_order bps cps u fid e).fill_price
        = pyRound (e.price + e.price * (bps / 10000) * u) 4 ∧
    |(ExecutionSimulator.on_order bps cps u fid e).fill_price - e.price|
        ≤ e.price * bps / 10000 + 1 / 20000 ∧
    (ExecutionSimulator.on_order bps cps u fid e).commission
        = pyRound ((e.quantity : ℚ) * cps) 4 ∧
    (e.price = 200 → bps = 1 →
      |(ExecutionSimulator.on_order bps cps u fid e).fill_price - 200|
        ≤ 1 / 50) := by
  have hfp := ExecutionSimulator.on_order_fill_price bps cps u fid e hp
  refine ⟨hfp, ?_, by simp [ExecutionSimulator.on_order], ?_⟩
  · have htri : |(ExecutionSimulator.on_order bps cps u fid e).fill_price - e.price|
        ≤ |(ExecutionSimulator.on_order bps cps u fid e).fill_price
            - (e.price + e.price * (bps / 10000) * u)|
          + |(e.price + e.price * (bps / 10000) * u) - e.price| :=
      abs_sub_le _ _ _
    have hround : |(ExecutionSimulator.on_order bps cps u fid e).fill_price
        - (e.price + e.price * (bps / 10000) * u)| ≤ 1 / 20000 := by
      rw [hfp]
      have := pyRound_dist (e.price + e.price * (bps / 10000) * u) 4
      calc |pyRound (e.price + e.price * (bps / 10000) * u) 4
            - (e.price + e.price * (bps / 10000) * u)|
          ≤ 1 / (2 * 10 ^ 4) := this
        _ = 1 / 20000 := by norm_num
    have hslip : |(e.price + e.price * (bps / 10000) * u) - e.price|
        ≤ e.price * bps / 10000 := by
      have h1 : (e.price + e.price * (bps / 10000) * u) - e.price
          = e.price * (bps / 10000) * u := by ring
      rw [h1, abs_mul, abs_mul]
      have hpap : |e.price| = e.price := abs_of_pos hp
      have hbap : |bps / 10000| = bps / 10000 := abs_of_nonneg (by positivity)
      rw [hpap, hbap]
      have hua : |u| ≤ 1 := abs_le.mpr ⟨hu1, hu2⟩
      calc e.price * (bps / 10000) * |u|
          ≤ e.price * (bps / 10000) * 1 := by
            apply mul_le_mul_of_nonneg_left hua (by positivity)
        _ = e.price * bps / 10000 := by ring
    linarith
  · intro hp200 hbps1
    rw [hfp, hp200, hbps1]
    have hlo : (1999800 : ℚ) ≤ (200 + 200 * (1 / 10000) * u) * 10 ^ 4 := by
      nlinarith
    have hhi : (200 + 200 * (1 / 10000) * u) * 10 ^ 4 ≤ (2000200 : ℚ) := by
      nlinarith
    have hge := halfEvenRound_ge ((200 + 200 * (1 / 10000) * u) * 10 ^ 4) 1999800 hlo
    have hle := halfEvenRound_le ((200 + 200 * (1 / 10000) * u) * 10 ^ 4) 2000200 hhi
    have hgeq : (1999800 : ℚ)
        ≤ (halfEvenRound ((200 + 200 * (1 / 10000) * u) * 10 ^ 4) : ℚ) := by
      exact_mod_cast hge
    have hleq : ((halfEvenRound ((200 + 200 * (1 / 10000) * u) * 10 ^ 4) : ℚ))
        ≤ 2000200 := by
      exact_mod_cast hle
    unfold pyRound
    have hdge : (1999800 : ℚ) / 10 ^ 4
        ≤ (halfEvenRound ((200 + 200 * (1 / 10000) * u) * 10 ^ 4) : ℚ) / 10 ^ 4 := by
      gcongr
    have hdle : (halfEvenRound ((200 + 200 * (1 / 10000) * u) * 10 ^ 4) : ℚ) / 10 ^ 4
        ≤ (2000200 : ℚ) / 10 ^ 4 := by
      gcongr
    rw [abs_sub_le_iff]
    have heq1 : (2000200 : ℚ) / 10 ^ 4 = 200 + 1 / 50 := by norm_num
    have heq2 : (1999800 : ℚ) / 10 ^ 4 = 200 - 1 / 50 := by norm_num
    constructor
    · linarith
    · linarith

/-- Witness for C8 (amended): default slippage of 1 bps at reference price
200.0 with draw `u = 1/2` stays within `200.0 ± 0.02`. -/
theorem c8_witness :
    |(ExecutionSimulator.on_order 1 (1 / 100) (1 / 2) fid2
        ⟨oid2, symA, 0, OrderType.market, Direction.buy, 100, 200⟩).fill_price
      - 200| ≤ 1 / 50 := by
  have h := c8_fill_price_slippage_band 1 (1 / 100) (1 / 2) fid2
    ⟨oid2, symA, 0, OrderType.market, Direction.buy, 100, 200⟩
    (by norm_num) (by norm_num) (by norm_num) (by norm_num)
  exact h.2.2.2 rfl rfl

/-! ## Rolling windows (`collections.deque(maxlen=n)`) -/

/-- The last `n` elements of a list. -/
def lastN {β : Type} (n : ℕ) (l : List β) : List β :=
  l.drop (l.length - n)

/-- Appending to a `deque(maxlen=n)`: append and drop from the front when
the bound is exceeded. -/
def pushWin {β : Type} (n : ℕ) (l : List β) (x : β) : List β :=
  if n < (l ++ [x]).length then (l ++ [x]).drop ((l ++ [x]).length - n)
  else l ++ [x]

theorem lastN_length {β : Type} (n : ℕ) (l : List β) :
    (lastN n l).length = min n l.length := by
  simp [lastN]
  omega

theorem pushWin_lastN {β : Type} (n : ℕ) (l : List β) (x : β) :
    pushWin n (lastN n l) x = lastN n (l ++ [x]) := by
  by_cases h : l.length < n
  · have h1 : l.length - n = 0 := by omega
    have h2 : l.length + 1 - n = 0 := by omega
    have hc : ¬ n < ((lastN n l) ++ [x]).length := by
      simp [lastN, h1]
      omega
    simp [pushWin, lastN, h1, h2, hc]
  · push_neg at h
    have hlen : (lastN n l).length = n := by
      simp [lastN]
      omega
    rcases Nat.eq_zero_or_pos n with hn0 | hn1
    · subst hn0
      have hz : lastN 0 l = [] := by
        simp [lastN]
      rw [hz]
      simp [pushWin, lastN]
    · have hc : n < ((lastN n l) ++ [x]).length := by
        simp [hlen]
      rw [pushWin, if_pos hc]
      have hidx : ((lastN n l) ++ [x]).length - n = 1 := by
        simp [hlen]
      rw [hidx]
      rw [List.drop_append_eq_append_drop]
      rw [hlen]
      have h1n : 1 - n = 0 := by omega
      rw [h1n, List.drop_zero]
      unfold lastN
      rw [List.drop_drop]
      rw [List.drop_append_eq_append_drop]
      simp only [List.length_append, List.length_cons, List.length_nil]
      have hix : l.length + (0 + 1) - n = l.length - n + 1 := by omega
      have hzx : l.length - n + 1 - l.length = 0 := by omega
      rw [hix, hzx, List.drop_zero]

/-! ## MACrossoverStrategy (`src/trading/signal/ma_crossover.py`) -/

/-- Mutable per-symbol state of `MACrossoverStrategy` (single-symbol view:
each symbol's window and previous SMA pair are independent). -/
structure MAState where
  prices : List ℚ
  prev_fast : Option ℚ
  prev_slow : Option ℚ
  deriving DecidableEq, Repr

namespace MACrossoverStrategy

/-- `MACrossoverStrategy._on_market_data` for one symbol: the updated state
and the published signal's `(direction, strength)`. -/
def on_market_data (fast slow : ℕ) (s : MAState) (close : ℚ) :
    MAState × Direction × ℚ :=
  let prices := pushWin slow s.prices close
  if prices.length < slow then
    (⟨prices, s.prev_fast, s.prev_slow⟩, Direction.hold, 0)
  else
    let sma_fast := (lastN fast prices).sum / fast
    let sma_slow := prices.sum / slow
    let strength :=
      if sma_slow ≠ 0 then pyRound (|sma_fast - sma_slow| / sma_slow) 6 else 0
    let direction :=
      match s.prev_fast, s.prev_slow with
      | some pf, some ps =>
          if pf ≤ ps ∧ sma_slow < sma_fast then Direction.buy
          else if ps ≤ pf ∧ sma_fast < sma_slow then Direction.sell
          else Direction.hold
      | _, _ => Direction.hold
    (⟨prices, some sma_fast, some sma_slow⟩, direction, strength)

/-- The strategy state of a symbol after consuming a list of closes. -/
def stateAfter (fast slow : ℕ) (closes : List ℚ) : MAState :=
  closes.foldl (fun s c => (on_market_data fast slow s c).1) ⟨[], none, none⟩

theorem stateAfter_spec (fast slow : ℕ) (hslow : 0 < slow) (closes : List ℚ) :
    stateAfter fast slow closes =
      ⟨lastN slow closes,
       if slow ≤ closes.length
         then some ((lastN fast (lastN slow closes)).sum / fast) else none,
       if slow ≤ closes.length
         then some ((lastN slow closes).sum / slow) else none⟩ := by
  induction closes using List.reverseRecOn with
  | nil =>
      have h0 : slow ≠ 0 := by omega
      simp [stateAfter, lastN, Nat.le_zero, h0]
  | append_singleton ms c ih =>
      unfold stateAfter at ih ⊢
      rw [List.foldl_append, List.foldl_cons, List.foldl_nil, ih]
      unfold on_market_data
      rw [pushWin_lastN]
      have hwl : (lastN slow (ms ++ [c])).length = min slow (ms.length + 1) := by
        rw [lastN_length]
        simp
      by_cases hb : ms.length + 1 < slow
      · have hcond : (lastN slow (ms ++ [c])).length < slow := by omega
        have hpre : ¬ slow ≤ ms.length := by omega
        have hpost : ¬ slow ≤ ms.length + 1 := by omega
        simp [hcond, hpre, hpost]
      · have hcond : ¬ (lastN slow (ms ++ [c])).length < slow := by omega
        have hpost : slow ≤ ms.length + 1 := by omega
        simp [hcond, hpost]

end MACrossoverStrategy

/-- Outcome of the crossover if-chain of `_on_market_data`, characterised as
two iffs (BUY exactly on an upward cross, SELL exactly on a downward one). -/
theorem crossover_chain_iff (a b a2 b2 : ℚ) :
    ((if a ≤ b ∧ b2 < a2 then Direction.buy
      else if b ≤ a ∧ a2 < b2 then Direction.sell
      else Direction.hold) = Direction.buy ↔ (a ≤ b ∧ b2 < a2)) ∧
    ((if a ≤ b ∧ b2 < a2 then Direction.buy
      else if b ≤ a ∧ a2 < b2 then Direction.sell
      else Direction.hold) = Direction.sell ↔ (b ≤ a ∧ a2 < b2)) := by
  by_cases h1 : a ≤ b ∧ b2 < a2
  · rw [if_pos h1]
    constructor
    · simp [h1]
    · constructor
      · intro hh
        exact Direction.noConfusion hh
      · rintro ⟨_, hlt⟩
        exact absurd hlt (not_lt.mpr (le_of_lt h1.2))
  · rw [if_neg h1]
    by_cases h2 : b ≤ a ∧ a2 < b2
    · rw [if_pos h2]
      constructor
      · constructor
        · intro hh
          exact Direction.noConfusion hh
        · intro hc
          exact absurd hc h1
      · simp [h2]
    · rw [if_neg h2]
      constructor
      · constructor
        · intro hh
          exact Direction.noConfusion hh
        · intro hc
          exact absurd hc h1
      · constructor
        · intro hh
          exact Direction.noConfusion hh
        · intro hc
          exact absurd hc h2

/-- **C5.** With warm-up measured in closes seen: while fewer than `slow`
closes have been seen the strategy emits HOLD with strength 0 (first
conjunct); on the first fully-warmed bar — the `slow`-th close — it emits
HOLD because no previous SMA pair exists (second conjunct); on every later
bar it emits BUY exactly when the fast SMA moves from `≤` the slow SMA on
the previous bar to `>` it on the current bar, and SELL exactly on the
mirror downward cross, HOLD otherwise (third conjunct). -/
theorem c5_ma_crossover_signal (fast slow : ℕ) (hf : 0 < fast)
    (hfs : fast < slow) (pre : List ℚ) (c : ℚ) :
    (pre.length + 1 < slow →
      (MACrossoverStrategy.on_market_data fast slow
        (MACrossoverStrategy.stateAfter fast slow pre) c).2
        = (Direction.hold, 0)) ∧
    (pre.length + 1 = slow →
      (MACrossoverStrategy.on_market_data fast slow
        (MACrossoverStrategy.stateAfter fast slow pre) c).2.1
        = Direction.hold) ∧
    (slow ≤ pre.length →
      (((MACrossoverStrategy.on_market_data fast slow
          (MACrossoverStrategy.stateAfter fast slow pre) c).2.1 = Direction.buy
        ↔ ((lastN fast (lastN slow pre)).sum / (fast : ℚ)
              ≤ (lastN slow pre).sum / (slow : ℚ) ∧
            (lastN slow (pre ++ [c])).sum / (slow : ℚ)
              < (lastN fast (lastN slow (pre ++ [c]))).sum / (fast : ℚ))) ∧
       ((MACrossoverStrategy.on_market_data fast slow
          (MACrossoverStrategy.stateAfter fast slow pre) c).2.1 = Direction.sell
        ↔ ((lastN slow pre).sum / (slow : ℚ)
              ≤ (lastN fast (lastN slow pre)).sum / (fast : ℚ) ∧
            (lastN fast (lastN slow (pre ++ [c]))).sum / (fast : ℚ)
              < (lastN slow (pre ++ [c])).sum / (slow : ℚ))))) := by
  have hslow : 0 < slow := by omega
  rw [MACrossoverStrategy.stateAfter_spec fast slow hslow pre]
  refine ⟨?_, ?_, ?_⟩
  · intro h
    have hcond : (pushWin slow (lastN slow pre) c).length < slow := by
      rw [pushWin_lastN, lastN_length]
      simp only [List.length_append, List.length_cons, List.length_nil]
      omega
    simp [MACrossoverStrategy.on_market_data, hcond]
  · intro h
    have hcond : ¬ (pushWin slow (lastN slow pre) c).length < slow := by
      rw [pushWin_lastN, lastN_length]
      simp only [List.length_append, List.length_cons, List.length_nil]
      omega
    have hpre : ¬ slow ≤ pre.length := by omega
    simp [MACrossoverStrategy.on_market_data, hcond, hpre]
  · intro h
    have hcond : ¬ (pushWin slow (lastN slow pre) c).length < slow := by
      rw [pushWin_lastN, lastN_length]
      simp only [List.length_append, List.length_cons, List.length_nil]
      omega
    have hcond2 : ¬ (lastN slow (pre ++ [c])).length < slow := by
      rw [lastN_length]
      simp only [List.length_append, List.length_cons, List.length_nil]
      omega
    simp only [MACrossoverStrategy.on_market_data, pushWin_lastN]
    rw [if_neg hcond2]
    simp only [if_pos h]
    exact crossover_chain_iff _ _ _ _

/-- Witness for C5: with `fast = 1`, `slow = 2`, closes `[5, 1]` then `10`,
the fast SMA crosses from below (1 ≤ 3) to above (10 > 5.5), so the
strategy emits BUY. -/
theorem c5_witness :
    (MACrossoverStrategy.on_market_data 1 2
      (MACrossoverStrategy.stateAfter 1 2 [5, 1]) 10).2.1 = Direction.buy := by
  have h := (c5_ma_crossover_signal 1 2 (by norm_num) (by norm_num)
    [5, 1] 10).2.2 (by norm_num)
  refine h.1.mpr ⟨?_, ?_⟩
  · show (lastN 1 (lastN 2 [5, 1])).sum / (1 : ℚ) ≤ (lastN 2 [5, 1]).sum / (2 : ℚ)
    norm_num [lastN]
  · show (lastN 2 ([5, 1] ++ [10])).sum / (2 : ℚ)
        < (lastN 1 (lastN 2 ([5, 1] ++ [10]))).sum / (1 : ℚ)
    norm_num [lastN]

/-! ## RSIStrategy (`src/trading/signal/rsi.py`) -/

/-- Successive differences `prices[i] - prices[i-1]`. -/
def diffs : List ℚ → List ℚ
  | a :: b :: rest => (b - a) :: diffs (b :: rest)
  | _ => []

/-- Mutable per-symbol state of `RSIStrategy`. -/
structure RSIState where
  prices : List ℚ
  prev_rsi : Option ℚ
  deriving DecidableEq, Repr

namespace RSIStrategy

/-- The RSI computation block of `RSIStrategy._on_market_data` (the
`changes`/`gains`/`losses`/`avg_gain`/`avg_loss`/`rsi` lines): note both
averages divide by `period`, with an explicit 0 branch for an empty list,
exactly as `sum(gains) / self.period if gains else 0.0` does. -/
def computeRSI (period : ℕ) (prices : List ℚ) : ℚ :=
  let changes := diffs prices
  let gains := changes.filter (fun c => 0 < c)
  let losses := (changes.filter (fun c => c < 0)).map (fun c => |c|)
  let avg_gain := if gains ≠ [] then gains.sum / (period : ℚ) else 0
  let avg_loss := if losses ≠ [] then losses.sum / (period : ℚ) else 0
  if avg_loss = 0 then 100
  else 100 - 100 / (1 + avg_gain / avg_loss)

/-- `RSIStrategy._on_market_data` for one symbol: updated state and the
published signal's `(direction, strength)`. -/
def on_market_data (period : ℕ) (overbought oversold : ℚ) (s : RSIState)
    (close : ℚ) : RSIState × Direction × ℚ :=
  let prices := pushWin (period + 1) s.prices close
  if prices.length < period + 1 then (⟨prices, s.prev_rsi⟩, Direction.hold, 0)
  else
    let rsi := computeRSI period prices
    let strength := pyRound (min (|rsi - 50| / 50) 1) 6
    let direction :=
      match s.prev_rsi with
      | some prev =>
          if oversold ≤ prev ∧ rsi < oversold then Direction.buy
          else if prev ≤ overbought ∧ overbought < rsi then Direction.sell
          else Direction.hold
      | none => Direction.hold
    (⟨prices, some rsi⟩, direction, strength)

/-- The strategy state of a symbol after consuming a list of closes. -/
def stateAfter (period : ℕ) (overbought oversold : ℚ) (closes : List ℚ) :
    RSIState :=
  closes.foldl (fun s c => (on_market_data period overbought oversold s c).1)
    ⟨[], none⟩

theorem rsi_stateAfter_spec (period : ℕ) (ob os : ℚ) (closes : List ℚ) :
    stateAfter period ob os closes =
      ⟨lastN (period + 1) closes,
       if period + 1 ≤ closes.length
         then some (computeRSI period (lastN (period + 1) closes)) else none⟩ := by
  induction closes using List.reverseRecOn with
  | nil =>
      simp [stateAfter, lastN]
  | append_singleton ms c ih =>
      unfold stateAfter at ih ⊢
      rw [List.foldl_append, List.foldl_cons, List.foldl_nil, ih]
      unfold on_market_data
      rw [pushWin_lastN]
      have hwl : (lastN (period + 1) (ms ++ [c])).length
          = min (period + 1) (ms.length + 1) := by
        rw [lastN_length]
        simp
      by_cases hb : ms.length + 1 < period + 1
      · have hcond : (lastN (period + 1) (ms ++ [c])).length < period + 1 := by
          omega
        have hpre : ¬ period + 1 ≤ ms.length := by omega
        have hpost : ¬ period + 1 ≤ ms.length + 1 := by omega
        simp [hcond, hpre, hpost]
      · have hcond : ¬ (lastN (period + 1) (ms ++ [c])).length < period + 1 := by
          omega
        have hpost : period + 1 ≤ ms.length + 1 := by omega
        simp [hcond, hpost]

end RSIStrategy

/-- Spec reading of claim C3: `avg_gain` as the MEAN of the positive deltas
over the window — their sum divided by how many there are (0 when there are
none, via the `x / 0 = 0` convention on `ℚ`). -/
def avgGainSpec (prices : List ℚ) : ℚ :=
  ((diffs prices).filter (fun c => 0 < c)).sum
    / ((((diffs prices).filter (fun c => 0 < c)).length : ℕ) : ℚ)

/-- Spec reading of claim C3: `avg_loss` as the MEAN of the absolute values
of the negative deltas. -/
def avgLossSpec (prices : List ℚ) : ℚ :=
  (((diffs prices).filter (fun c => c < 0)).map (fun c => |c|)).sum
    / (((((diffs prices).filter (fun c => c < 0)).map (fun c => |c|)).length : ℕ) : ℚ)

/-- The RSI value claim C3 ascribes to the code, built from the mean-based
averages. -/
def rsiSpecMean (prices : List ℚ) : ℚ :=
  if avgLossSpec prices = 0 then 100
  else 100 - 100 / (1 + avgGainSpec prices / avgLossSpec prices)

/-- The amended formula: both averages are the SUM of the (positive /
absolute negative) deltas divided by `period`, not their mean. -/
def rsiSpecOverPeriod (period : ℕ) (prices : List ℚ) : ℚ :=
  if (((diffs prices).filter (fun c => c < 0)).map (fun c => |c|)).sum
      / (period : ℚ) = 0 then 100
  else 100 - 100 /
    (1 + (((diffs prices).filter (fun c => 0 < c)).sum / (period : ℚ))
      / ((((diffs prices).filter (fun c => c < 0)).map (fun c => |c|)).sum
          / (period : ℚ)))

theorem computeRSI_eq_spec (period : ℕ) (prices : List ℚ) :
    RSIStrategy.computeRSI period prices = rsiSpecOverPeriod period prices := by
  have hgain : (if ((diffs prices).filter (fun c => 0 < c)) ≠ [] then
        ((diffs prices).filter (fun c => 0 < c)).sum / (period : ℚ) else 0)
      = ((diffs prices).filter (fun c => 0 < c)).sum / (period : ℚ) := by
    by_cases hg : ((diffs prices).filter (fun c => 0 < c)) = []
    · simp [hg]
    · simp [hg]
  have hloss : (if (((diffs prices).filter (fun c => c < 0)).map (fun c => |c|)) ≠ [] then
        (((diffs prices).filter (fun c => c < 0)).map (fun c => |c|)).sum / (period : ℚ)
        else 0)
      = (((diffs prices).filter (fun c => c < 0)).map (fun c => |c|)).sum / (period : ℚ) := by
    by_cases hl : (((diffs prices).filter (fun c => c < 0)).map (fun c => |c|)) = []
    · simp [hl]
    · simp [hl]
  simp only [RSIStrategy.computeRSI, rsiSpecOverPeriod]
  rw [hgain, hloss]

/-- Counterexample to **C3** as stated: for `period = 3` and window
`[0, 2, 4, 3]` (deltas `[2, 2, -1]`), the code's `avg_gain` is
`(2 + 2) / 3` — the sum of the positive deltas divided by `period` — not
their mean `2`, so the code's RSI is 80 while the claim's mean-based
formula yields `200 / 3`; the RSI stage stores 80. -/
theorem c3_counterexample :
    RSIStrategy.computeRSI 3 [0, 2, 4, 3] = 80 ∧
    rsiSpecMean [0, 2, 4, 3] = 200 / 3 ∧
    RSIStrategy.computeRSI 3 [0, 2, 4, 3] ≠ rsiSpecMean [0, 2, 4, 3] ∧
    (RSIStrategy.stateAfter 3 70 30 [0, 2, 4, 3]).prev_rsi = some 80 := by
  have h1 : RSIStrategy.computeRSI 3 [0, 2, 4, 3] = 80 := by
    norm_num [RSIStrategy.computeRSI, diffs]
    rw [if_neg (by simp : ¬ ([2, 2] : List ℚ) = [])]
    norm_num
  have h2 : rsiSpecMean [0, 2, 4, 3] = 200 / 3 := by
    norm_num [rsiSpecMean, avgGainSpec, avgLossSpec, diffs]
  refine ⟨h1, h2, ?_, ?_⟩
  · rw [h1, h2]
    norm_num
  · have hl : lastN (3 + 1) [0, 2, 4, 3] = ([0, 2, 4, 3] : List ℚ) := by
      norm_num [lastN]
    rw [RSIStrategy.rsi_stateAfter_spec, hl]
    simp [h1]

/-- **C3 (amended).** For every symbol with at least `period + 1` observed
closes, the RSI value the stage computes and stores for crossover detection
uses `avg_gain` = (sum of the positive successive deltas over the window)
divided by `period` (0 if none), `avg_loss` = (sum of the absolute negative
deltas) divided by `period` (0 if none), and equals 100 when `avg_loss` is
0 and `100 - 100/(1 + avg_gain/avg_loss)` otherwise. -/
theorem c3_rsi_sum_over_period (period : ℕ) (ob os : ℚ) (closes : List ℚ)
    (hlen : period + 1 ≤ closes.length) :
    (RSIStrategy.stateAfter period ob os closes).prev_rsi
      = some (rsiSpecOverPeriod period (lastN (period + 1) closes)) := by
  rw [RSIStrategy.rsi_stateAfter_spec]
  simp only [hlen, if_pos]
  rw [computeRSI_eq_spec]

/-- Witness for C3 (amended): `period = 2`, closes `[0, 2, 1]` — deltas
`[2, -1]`, `avg_gain = 2/2`, `avg_loss = 1/2`, RSI `= 200/3`. -/
theorem c3_witness :
    2 + 1 ≤ ([0, 2, 1] : List ℚ).length ∧
    (RSIStrategy.stateAfter 2 70 30 [0, 2, 1]).prev_rsi = some (200 / 3) := by
  refine ⟨by norm_num, ?_⟩
  rw [c3_rsi_sum_over_period 2 70 30 [0, 2, 1] (by norm_num)]
  have hl : lastN (2 + 1) [0, 2, 1] = ([0, 2, 1] : List ℚ) := by
    norm_num [lastN]
  rw [hl]
  norm_num [rsiSpecOverPeriod, diffs]
